import Mathlib

/-!
Shallow embedding of the detection aggregation engine of the
`drone-anomaly-server` repository (client stores `detections-store` and
`analytics-store`): the data model, the deduplicating admission logic, the
analytics aggregator, the frequency-table builder, and the polling loop,
together with theorems settling the specification claims about them.

Numbers: JavaScript `number` values that the code only adds, divides and
compares are modelled as `ℚ` (confidence values, timestamps, frequencies);
integer counters as `ℕ`; tracking identifiers as `ℤ`.

JavaScript `Record<number, V>` objects keyed by non-negative integer class
ids are modelled as association lists kept sorted by key, because
`Object.values` / `Object.entries` enumerate array-index keys in ascending
numeric order (ECMA-262 OrdinaryOwnPropertyKeys), not in insertion order.
JavaScript `Set` objects whose enumeration order is never used are modelled
as `Finset`.
-/

/-- One detection event, as in `services/types.ts` extended with the
`track_id` field used by the stores (`integer or absent`). -/
structure Detection where
  class_id : Nat
  class_name : String
  confidence : ℚ
  bbox : ℚ × ℚ × ℚ × ℚ
  is_anomaly : Bool
  track_id : Option Int
deriving DecidableEq, Repr

/-- The payload of the `/detections` endpoint (`DetectionsResponse` in
`services/types.ts`). -/
structure DetectionsResponse where
  timestamp : ℚ
  num_detections : Nat
  detections : List Detection
  inference_count : Nat
  inference_fps : ℚ
  has_anomaly : Bool
  anomaly_count : Nat
deriving DecidableEq, Repr

/-- Model of a JavaScript `Record<number, V>`: an association list sorted by
key, enumerated in ascending key order as `Object.entries` does for
array-index keys. -/
abbrev RecordMap (V : Type) : Type := List (Nat × V)

/-- The empty record, `{}`. -/
def RecordMap.empty (V : Type) : RecordMap V := []

/-- Property lookup `m[k]`, returning `undefined` as `none`. -/
def RecordMap.lookup {V : Type} : RecordMap V → Nat → Option V
  | [], _ => none
  | (k', v') :: rest, k => if k = k' then some v' else RecordMap.lookup rest k

/-- Property assignment `m[k] = v`, keeping the ascending key order that the
JavaScript object maintains for array-index keys. -/
def RecordMap.set {V : Type} : RecordMap V → Nat → V → RecordMap V
  | [], k, v => [(k, v)]
  | (k', v') :: rest, k, v =>
    if k < k' then (k, v) :: (k', v') :: rest
    else if k = k' then (k, v) :: rest
    else (k', v') :: RecordMap.set rest k v

/-- `Object.values(m)`, in ascending key order. -/
def RecordMap.values {V : Type} (m : RecordMap V) : List V := m.map Prod.snd

/-- The keys of the record, in enumeration order. -/
def RecordMap.keys {V : Type} (m : RecordMap V) : List Nat := m.map Prod.fst

/-- Keys are strictly ascending: the invariant every reachable record
satisfies, and what `Object.entries` order means for array-index keys. -/
def RecordMap.SortedKeys {V : Type} (m : RecordMap V) : Prop :=
  m.Pairwise (fun a b => a.1 < b.1)

instance {V : Type} (m : RecordMap V) : Decidable m.SortedKeys :=
  inferInstanceAs (Decidable (m.Pairwise _))

/-- `Object.values(m).reduce((a, b) => a + b, 0)` for a numeric record. -/
def RecordMap.valuesSum (m : RecordMap Nat) : Nat :=
  m.values.foldl (fun a b => a + b) 0

/-- One entry of the detections store's `detectionCounts` record: the
per-class summary `{ detection, numDetects }`. -/
structure CountEntry where
  detection : Detection
  numDetects : Nat
deriving DecidableEq, Repr

/-- The per-class admission step of `fetchDetections` in
`detections-store` (lines 33–46): create the entry with count 1, or bump the
count and replace the stored detection when the new confidence is strictly
greater. -/
def admitDet (m : RecordMap CountEntry) (det : Detection) : RecordMap CountEntry :=
  match m.lookup det.class_id with
  | none => m.set det.class_id ⟨det, 1⟩
  | some e =>
    m.set det.class_id
      ⟨if det.confidence > e.detection.confidence then det else e.detection,
        e.numDetects + 1⟩

/-- State of the detections store (`useDetectionsStore`): last response,
loading/error flags, per-class counts, the admission set, and the timer id. -/
structure DetStore where
  data : Option DetectionsResponse
  loading : Bool
  error : Option String
  detectionCounts : RecordMap CountEntry
  seenTrackingIds : Finset Int
  intervalId : Option Nat
deriving DecidableEq

/-- A freshly constructed detections store. -/
def DetStore.init : DetStore :=
  { data := none, loading := false, error := none
    detectionCounts := RecordMap.empty _, seenTrackingIds := ∅, intervalId := none }

/-- The body of the `forEach` in `fetchDetections` (lines 27–47): skip a
detection with absent `track_id`, skip an already-seen `track_id`, otherwise
record the id and admit the detection. -/
def DetStore.processOne (st : DetStore) (det : Detection) : DetStore :=
  match det.track_id with
  | none => st
  | some tid =>
    if tid ∈ st.seenTrackingIds then st
    else
      { st with
        seenTrackingIds := insert tid st.seenTrackingIds
        detectionCounts := admitDet st.detectionCounts det }

/-- The synchronous prefix of `fetchDetections` (lines 20–21): raise the
loading flag and clear the error flag before the network call suspends. -/
def DetStore.beginFetch (st : DetStore) : DetStore :=
  { st with loading := true, error := none }

/-- Resolution of the network call in `fetchDetections` (lines 23–54): on
success store the response and run the admission loop; on failure set the
error message; either way drop the loading flag. -/
def DetStore.resolveFetch (st : DetStore) (outcome : Except Unit DetectionsResponse) :
    DetStore :=
  match outcome with
  | .ok resp =>
    let st1 := { st with data := some resp }
    let st2 := resp.detections.foldl DetStore.processOne st1
    { st2 with loading := false }
  | .error _ =>
    { st with error := some "Failed to fetch detections", loading := false }

/-- One whole call of `fetchDetections` with the given network outcome. -/
def DetStore.fetchDetections (st : DetStore) (outcome : Except Unit DetectionsResponse) :
    DetStore :=
  (st.beginFetch).resolveFetch outcome

/-- `resetCounts` (lines 57–60): clear `detectionCounts` and
`seenTrackingIds`; `data`, `loading`, `error` and the timer are untouched. -/
def DetStore.resetCounts (st : DetStore) : DetStore :=
  { st with detectionCounts := RecordMap.empty _, seenTrackingIds := ∅ }

/-- Accessor `groupedDetections`: `Object.values(detectionCounts)`. -/
def DetStore.groupedDetections (st : DetStore) : List CountEntry :=
  st.detectionCounts.values

/-- Stable insertion of `x` into a list already sorted by `le`: `x` moves
left past exactly the elements it must precede. -/
def stableInsert {α : Type} (le : α → α → Bool) (x : α) : List α → List α
  | [] => [x]
  | y :: ys => if le x y then x :: y :: ys else y :: stableInsert le x ys

/-- Stable sort by the comparison `le` (insertion sort): the extensional
behaviour ECMA-262 (ES2019) guarantees for `Array.prototype.sort` with a
consistent comparator. -/
def stableSort {α : Type} (le : α → α → Bool) : List α → List α
  | [] => []
  | x :: xs => stableInsert le x (stableSort le xs)

/-- The comparator of `groupedDetectionsSorted`:
`Number(b.detection.is_anomaly) - Number(a.detection.is_anomaly)` keeps `a`
no later than `b` exactly when `a` is anomalous or `b` is not. -/
def anomFirst (a b : CountEntry) : Bool :=
  a.detection.is_anomaly || !b.detection.is_anomaly

/-- Accessor `groupedDetectionsSorted`:
`[...groupedDetections].sort((a, b) => Number(b.detection.is_anomaly) - Number(a.detection.is_anomaly))`. -/
def DetStore.groupedDetectionsSorted (st : DetStore) : List CountEntry :=
  stableSort anomFirst st.groupedDetections

/-- Accessor `groupedAnomalies`: the grouped entries whose stored detection
is anomalous. -/
def DetStore.groupedAnomalies (st : DetStore) : List CountEntry :=
  st.groupedDetections.filter (fun e => e.detection.is_anomaly)

/-- Accessor `detections`: `data?.detections ?? []`. -/
def DetStore.detectionsView (st : DetStore) : List Detection :=
  (st.data.map DetectionsResponse.detections).getD []

/-- Accessor `anomalies`: the anomalous detections of the last snapshot. -/
def DetStore.anomaliesView (st : DetStore) : List Detection :=
  st.detectionsView.filter (fun d => d.is_anomaly)

/-- Accessor `num_detections`: `data?.num_detections ?? 0`. -/
def DetStore.numDetectionsView (st : DetStore) : Nat :=
  (st.data.map DetectionsResponse.num_detections).getD 0

/-- Accessor `anomaly_count`: `data?.anomaly_count ?? 0`. -/
def DetStore.anomalyCountView (st : DetStore) : Nat :=
  (st.data.map DetectionsResponse.anomaly_count).getD 0

/-- Accessor `has_anomaly`: `groupedAnomalies.length > 0`. -/
def DetStore.hasAnomalyView (st : DetStore) : Bool :=
  decide (0 < st.groupedAnomalies.length)

/-- Accessor `timestamp`: `data?.timestamp ?? 0`. -/
def DetStore.timestampView (st : DetStore) : ℚ :=
  (st.data.map DetectionsResponse.timestamp).getD 0

/-- Accessor `inference_count`: `data?.inference_count ?? 0`. -/
def DetStore.inferenceCountView (st : DetStore) : Nat :=
  (st.data.map DetectionsResponse.inference_count).getD 0

/-- Accessor `inference_fps`: `data?.inference_fps ?? 0`. -/
def DetStore.inferenceFpsView (st : DetStore) : ℚ :=
  (st.data.map DetectionsResponse.inference_fps).getD 0

/-- An entry of the analytics store's `classInfo` record. -/
structure ClassInfoEntry where
  class_name : String
deriving DecidableEq, Repr

/-- State of the analytics store (`useAnalyticsStore`): running totals,
extremes, the two disjoint count records, class metadata and the admission
set. -/
structure AnaStore where
  totalDetections : Nat
  totalConfidence : ℚ
  maxDetection : Option Detection
  minDetection : Option Detection
  objectCounts : RecordMap Nat
  anomalyCounts : RecordMap Nat
  classInfo : RecordMap ClassInfoEntry
  seenTrackingIds : Finset Int
deriving DecidableEq

/-- A freshly constructed analytics store. -/
def AnaStore.init : AnaStore :=
  { totalDetections := 0, totalConfidence := 0
    maxDetection := none, minDetection := none
    objectCounts := RecordMap.empty _, anomalyCounts := RecordMap.empty _
    classInfo := RecordMap.empty _, seenTrackingIds := ∅ }

/-- The aggregation body of `processDetections` in `analytics-store`
(lines 26–49), run once a detection has passed the admission guard. -/
def AnaStore.admitDetection (st : AnaStore) (det : Detection) : AnaStore :=
  { st with
    totalDetections := st.totalDetections + 1
    totalConfidence := st.totalConfidence + det.confidence
    classInfo :=
      match st.classInfo.lookup det.class_id with
      | none => st.classInfo.set det.class_id ⟨det.class_name⟩
      | some _ => st.classInfo
    maxDetection :=
      match st.maxDetection with
      | none => some det
      | some m => if det.confidence > m.confidence then some det else some m
    minDetection :=
      match st.minDetection with
      | none => some det
      | some m => if det.confidence < m.confidence then some det else some m
    objectCounts :=
      if det.is_anomaly then st.objectCounts
      else st.objectCounts.set det.class_id
        ((st.objectCounts.lookup det.class_id).getD 0 + 1)
    anomalyCounts :=
      if det.is_anomaly then
        st.anomalyCounts.set det.class_id
          ((st.anomalyCounts.lookup det.class_id).getD 0 + 1)
      else st.anomalyCounts }

/-- The `forEach` body of `processDetections` (lines 21–50): skip absent or
already-seen `track_id`s, otherwise record the id and aggregate. -/
def AnaStore.processOne (st : AnaStore) (det : Detection) : AnaStore :=
  match det.track_id with
  | none => st
  | some tid =>
    if tid ∈ st.seenTrackingIds then st
    else AnaStore.admitDetection { st with seenTrackingIds := insert tid st.seenTrackingIds } det

/-- `processDetections(detections)` (lines 20–51). -/
def AnaStore.processDetections (st : AnaStore) (detections : List Detection) : AnaStore :=
  detections.foldl AnaStore.processOne st

/-- `resetAnalytics` (lines 60–69): every field back to its initial value. -/
def AnaStore.resetAnalytics (st : AnaStore) : AnaStore :=
  { st with
    totalDetections := 0, totalConfidence := 0
    maxDetection := none, minDetection := none
    objectCounts := RecordMap.empty _, anomalyCounts := RecordMap.empty _
    classInfo := RecordMap.empty _, seenTrackingIds := ∅ }

/-- Accessor `averageConfidence`. -/
def AnaStore.averageConfidence (st : AnaStore) : ℚ :=
  if st.totalDetections = 0 then 0 else st.totalConfidence / st.totalDetections

/-- Accessor `totalObjects`: `Object.values(objectCounts).reduce((a, b) => a + b, 0)`. -/
def AnaStore.totalObjects (st : AnaStore) : Nat := st.objectCounts.valuesSum

/-- Accessor `totalAnomalies`: `Object.values(anomalyCounts).reduce((a, b) => a + b, 0)`. -/
def AnaStore.totalAnomalies (st : AnaStore) : Nat := st.anomalyCounts.valuesSum

/-- Accessor `totalObjectDistribution`. -/
def AnaStore.totalObjectDistribution (st : AnaStore) : ℚ :=
  if st.totalDetections = 0 then 0 else (st.totalObjects : ℚ) / st.totalDetections

/-- Accessor `totalAnomalyDistribution`. -/
def AnaStore.totalAnomalyDistribution (st : AnaStore) : ℚ :=
  if st.totalDetections = 0 then 0 else (st.totalAnomalies : ℚ) / st.totalDetections

/-- One row of a frequency table (`FrequencyItem`). -/
structure FrequencyItem where
  class_id : Nat
  class_name : String
  count : Nat
  frequency : ℚ
deriving DecidableEq, Repr

/-- `buildFrequencyList(counts, divisor)` (lines 97–109): empty when the
divisor is 0, otherwise one row per entry of `counts` with
`frequency = count / divisor`, naming the class from `classInfo`. -/
def AnaStore.buildFrequencyList (st : AnaStore) (counts : RecordMap Nat)
    (divisor : ℚ) : List FrequencyItem :=
  if divisor = 0 then []
  else
    counts.map fun kc =>
      { class_id := kc.1
        class_name := ((st.classInfo.lookup kc.1).map ClassInfoEntry.class_name).getD "Unknown"
        count := kc.2
        frequency := (kc.2 : ℚ) / divisor }

/-- Accessor `objectFrequencyByObjects`. -/
def AnaStore.objectFrequencyByObjects (st : AnaStore) : List FrequencyItem :=
  st.buildFrequencyList st.objectCounts st.totalObjects

/-- Accessor `anomalyFrequencyByAnomalies`. -/
def AnaStore.anomalyFrequencyByAnomalies (st : AnaStore) : List FrequencyItem :=
  st.buildFrequencyList st.anomalyCounts st.totalAnomalies

/-- Accessor `objectFrequencyByDetections`. -/
def AnaStore.objectFrequencyByDetections (st : AnaStore) : List FrequencyItem :=
  st.buildFrequencyList st.objectCounts st.totalDetections

/-- Accessor `anomalyFrequencyByDetections`. -/
def AnaStore.anomalyFrequencyByDetections (st : AnaStore) : List FrequencyItem :=
  st.buildFrequencyList st.anomalyCounts st.totalDetections

/-- An operation on the analytics store, for reachability statements. -/
inductive AnaOp where
  | process (detections : List Detection)
  | reset
deriving DecidableEq

/-- Apply one analytics-store operation. -/
def AnaStore.applyOp (st : AnaStore) : AnaOp → AnaStore
  | .process ds => st.processDetections ds
  | .reset => st.resetAnalytics

/-- Run a sequence of operations from the fresh store: the reachable states
of the analytics store are exactly the results of such runs. -/
def AnaStore.runOps (ops : List AnaOp) : AnaStore :=
  ops.foldl AnaStore.applyOp AnaStore.init

/-- State of the polling machinery around the detections store: the store
itself, the interval of each poll continuation whose fetch is in flight, the
pending timers `(id, interval)`, and a counter supplying fresh timer ids. -/
structure PollState where
  store : DetStore
  inflight : List Nat
  armed : List (Nat × Nat)
  nextId : Nat
deriving DecidableEq

/-- The poll machinery of a fresh store: nothing in flight, no timer. -/
def PollState.init : PollState :=
  { store := DetStore.init, inflight := [], armed := [], nextId := 0 }

/-- An event of the polling state machine: a `startPolling(ms)` call, the
resolution of the `i`-th in-flight fetch with a network outcome, the firing
of a pending timer, or a `stopPolling()` call. -/
inductive PollEvent where
  | start (intervalMs : Nat)
  | resolve (i : Nat) (outcome : Except Unit DetectionsResponse)
  | fire (timerId : Nat)
  | stop

/-- One step of the polling state machine, from `startPolling` /
`stopPolling` (lines 62–78 of `detections-store`):
`start` returns at once when `intervalId` is non-null, and otherwise runs
`poll()`, whose synchronous prefix is `fetchDetections` up to its `await`;
`resolve` finishes that `fetchDetections` call and then executes
`intervalId = window.setTimeout(poll, intervalMs)`, arming a fresh timer;
`fire` consumes a pending timer and runs `poll()` again, leaving the stale
`intervalId` in place; `stop` clears the timer named by `intervalId` (a
no-op on an id that already fired) and nulls `intervalId`. -/
def PollState.step (s : PollState) : PollEvent → PollState
  | .start ms =>
    if s.store.intervalId ≠ none then s
    else { s with store := s.store.beginFetch, inflight := s.inflight ++ [ms] }
  | .resolve i outcome =>
    match s.inflight.get? i with
    | none => s
    | some ms =>
      let st1 := s.store.resolveFetch outcome
      { store := { st1 with intervalId := some s.nextId }
        inflight := s.inflight.eraseIdx i
        armed := s.armed ++ [(s.nextId, ms)]
        nextId := s.nextId + 1 }
  | .fire tid =>
    match s.armed.find? (fun t => t.1 = tid) with
    | none => s
    | some t =>
      { s with
        store := s.store.beginFetch
        armed := s.armed.filter (fun u => u.1 ≠ tid)
        inflight := s.inflight ++ [t.2] }
  | .stop =>
    match s.store.intervalId with
    | none => s
    | some tid =>
      { s with
        store := { s.store with intervalId := none }
        armed := s.armed.filter (fun u => u.1 ≠ tid) }

/-- Run a sequence of polling events from the fresh machine. -/
def PollState.run (events : List PollEvent) : PollState :=
  events.foldl PollState.step PollState.init

/-- Run a sequence of whole `fetchDetections` calls with the given network
outcomes, as successive polls do. -/
def DetStore.runFetches (st : DetStore) (outcomes : List (Except Unit DetectionsResponse)) :
    DetStore :=
  outcomes.foldl DetStore.fetchDetections st

/-- Run the analytics store over a sequence of polled detection lists, as
successive `updateDetections` calls do. -/
def AnaStore.runPolls (dss : List (List Detection)) : AnaStore :=
  dss.foldl AnaStore.processDetections AnaStore.init

/-- The subsequence of a detection list that the admission guard forwards:
detections with an absent or previously seen `track_id` are dropped, the
rest are forwarded in order and their ids marked seen. -/
def admittedList (seen : Finset Int) : List Detection → List Detection
  | [] => []
  | d :: ds =>
    match d.track_id with
    | none => admittedList seen ds
    | some tid =>
      if tid ∈ seen then admittedList seen ds
      else d :: admittedList (insert tid seen) ds

/-- The detection lists of the successful outcomes, concatenated: everything
the admission loop ever saw across a sequence of fetches. -/
def successDetections (outcomes : List (Except Unit DetectionsResponse)) : List Detection :=
  (outcomes.filterMap fun o =>
    match o with
    | .ok resp => some resp.detections
    | .error _ => none).flatten

/-- The evolution of one class's `detectionCounts` entry under the admission
step `admitDet`, projected out of the record. -/
def entryStep (o : Option CountEntry) (det : Detection) : Option CountEntry :=
  match o with
  | none => some ⟨det, 1⟩
  | some e =>
    some ⟨if det.confidence > e.detection.confidence then det else e.detection,
      e.numDetects + 1⟩

/-- Sample detection: a car of class 5, confidence 2/5, tracked as id 1. -/
def detCar : Detection := ⟨5, "car", mkRat 2 5, (0, 0, 1, 1), false, some 1⟩

/-- Sample detection: a dog of class 3, confidence 9/10, tracked as id 2. -/
def detDog : Detection := ⟨3, "dog", mkRat 9 10, (0, 0, 1, 1), false, some 2⟩

/-- Sample successful response carrying only `detCar`. -/
def respCar : DetectionsResponse := ⟨7, 1, [detCar], 3, 2, false, 0⟩

/-- Sample successful response carrying `detCar` then `detDog`. -/
def respTwo : DetectionsResponse := ⟨7, 2, [detCar, detDog], 3, 2, false, 0⟩

/-- Sample successful response with no detections. -/
def respEmpty : DetectionsResponse := ⟨1, 0, [], 1, 1, false, 0⟩

/-- Equation lemma: lookup on a cons cell. -/
theorem RecordMap.lookup_cons {V : Type} (k' : Nat) (v' : V) (rest : RecordMap V) (k : Nat) :
    RecordMap.lookup ((k', v') :: rest) k = if k = k' then some v' else rest.lookup k := rfl

/-- Setting key `k` makes lookup of `k` return the new value. -/
theorem RecordMap.lookup_set_self {V : Type} (m : RecordMap V) (k : Nat) (v : V) :
    (m.set k v).lookup k = some v := by
  induction m with
  | nil => simp [RecordMap.set, RecordMap.lookup]
  | cons hd rest ih =>
    obtain ⟨k', v'⟩ := hd
    by_cases h1 : k < k'
    · simp [RecordMap.set, h1, RecordMap.lookup]
    · by_cases h2 : k = k'
      · simp [RecordMap.set, h1, h2, RecordMap.lookup]
      · simp [RecordMap.set, h1, h2, RecordMap.lookup, ih]

/-- Setting key `k` does not change lookup of a different key. -/
theorem RecordMap.lookup_set_ne {V : Type} (m : RecordMap V) (k c : Nat) (v : V)
    (hne : c ≠ k) : (m.set k v).lookup c = m.lookup c := by
  induction m with
  | nil => simp [RecordMap.set, RecordMap.lookup, hne]
  | cons hd rest ih =>
    obtain ⟨k', v'⟩ := hd
    by_cases h1 : k < k'
    · simp [RecordMap.set, h1, RecordMap.lookup, hne]
    · by_cases h2 : k = k'
      · subst h2
        simp [RecordMap.set, h1, RecordMap.lookup, hne]
      · simp [RecordMap.set, h1, h2, RecordMap.lookup, ih]

/-- Lookup misses when the key is below every key of the record. -/
theorem RecordMap.lookup_eq_none_of_lt {V : Type} (m : RecordMap V) (k : Nat)
    (h : ∀ p ∈ m, k < p.1) : m.lookup k = none := by
  induction m with
  | nil => rfl
  | cons hd rest ih =>
    have hk : k ≠ hd.1 := Nat.ne_of_lt (h hd (by simp))
    obtain ⟨k', v'⟩ := hd
    simp only [RecordMap.lookup_cons]
    rw [if_neg hk]
    exact ih fun p hp => h p (List.mem_cons_of_mem _ hp)

/-- Every entry of `m.set k v` is either the new binding or an entry of `m`. -/
theorem RecordMap.mem_set_cases {V : Type} (m : RecordMap V) (k : Nat) (v : V)
    (p : Nat × V) (hp : p ∈ m.set k v) : p.1 = k ∨ p ∈ m := by
  induction m with
  | nil =>
    simp only [RecordMap.set, List.mem_singleton] at hp
    left; rw [hp]
  | cons hd rest ih =>
    obtain ⟨k', v'⟩ := hd
    by_cases h1 : k < k'
    · simp only [RecordMap.set, if_pos h1] at hp
      rcases List.mem_cons.mp hp with h | h
      · left; rw [h]
      · right; exact h
    · by_cases h2 : k = k'
      · simp only [RecordMap.set, if_neg h1, if_pos h2] at hp
        rcases List.mem_cons.mp hp with h | h
        · left; rw [h]
        · right; exact List.mem_cons_of_mem _ h
      · simp only [RecordMap.set, if_neg h1, if_neg h2] at hp
        rcases List.mem_cons.mp hp with h | h
        · right; rw [h]; exact List.mem_cons_self _ _
        · rcases ih h with h' | h'
          · left; exact h'
          · right; exact List.mem_cons_of_mem _ h'

/-- Setting a key keeps the keys strictly ascending. -/
theorem RecordMap.sortedKeys_set {V : Type} (m : RecordMap V) (k : Nat) (v : V)
    (h : m.SortedKeys) : (m.set k v).SortedKeys := by
  induction m with
  | nil => simp [RecordMap.set, RecordMap.SortedKeys]
  | cons hd rest ih =>
    obtain ⟨k', v'⟩ := hd
    rw [RecordMap.SortedKeys, List.pairwise_cons] at h
    obtain ⟨hhd, hrest⟩ := h
    by_cases h1 : k < k'
    · rw [RecordMap.SortedKeys, RecordMap.set]
      simp only [if_pos h1]
      rw [List.pairwise_cons]
      constructor
      · intro p hp
        rcases List.mem_cons.mp hp with h | h
        · rw [h]; exact h1
        · exact Nat.lt_trans h1 (hhd p h)
      · rw [List.pairwise_cons]
        exact ⟨hhd, hrest⟩
    · by_cases h2 : k = k'
      · subst h2
        rw [RecordMap.SortedKeys, RecordMap.set]
        simp only [if_neg h1, if_pos rfl, if_true]
        rw [List.pairwise_cons]
        exact ⟨hhd, hrest⟩
      · rw [RecordMap.SortedKeys, RecordMap.set]
        simp only [if_neg h1, if_neg h2]
        rw [List.pairwise_cons]
        constructor
        · intro p hp
          rcases RecordMap.mem_set_cases rest k v p hp with h | h
          · rw [h]
            exact Nat.lt_of_le_of_ne (Nat.le_of_not_lt h1) (Ne.symm h2)
          · exact hhd p h
        · exact ih hrest

/-- Folding addition from an accumulator adds the list sum. -/
theorem foldl_add_acc (l : List Nat) (n : Nat) :
    l.foldl (fun a b => a + b) n = n + l.sum := by
  induction l generalizing n with
  | nil => simp
  | cons x xs ih => simp [List.foldl_cons, ih, Nat.add_assoc]

/-- `valuesSum` is the sum of the stored values. -/
theorem RecordMap.valuesSum_eq (m : RecordMap Nat) : m.valuesSum = (m.map Prod.snd).sum := by
  simp [RecordMap.valuesSum, RecordMap.values, foldl_add_acc]

/-- `valuesSum` on a cons cell. -/
theorem RecordMap.valuesSum_cons (k : Nat) (v : Nat) (m : RecordMap Nat) :
    RecordMap.valuesSum ((k, v) :: m) = v + m.valuesSum := by
  simp [RecordMap.valuesSum_eq]

/-- Setting a key trades the old value of that key for the new one in the
value sum, provided the keys are strictly ascending. -/
theorem RecordMap.valuesSum_set (m : RecordMap Nat) (k : Nat) (v : Nat)
    (h : m.SortedKeys) :
    (RecordMap.set m k v).valuesSum + (RecordMap.lookup m k).getD 0 = m.valuesSum + v := by
  induction m with
  | nil =>
    simp [RecordMap.set, RecordMap.valuesSum, RecordMap.values, RecordMap.lookup]
  | cons hd rest ih =>
    obtain ⟨k', v'⟩ := hd
    rw [RecordMap.SortedKeys, List.pairwise_cons] at h
    obtain ⟨hhd, hrest⟩ := h
    by_cases h1 : k < k'
    · have hnone : RecordMap.lookup rest k = none := by
        apply RecordMap.lookup_eq_none_of_lt
        intro p hp
        exact Nat.lt_trans h1 (hhd p hp)
      rw [RecordMap.set]
      simp only [if_pos h1, RecordMap.valuesSum_cons, RecordMap.lookup_cons,
        if_neg (Nat.ne_of_lt h1), hnone]
      simp
      omega
    · by_cases h2 : k = k'
      · subst h2
        rw [RecordMap.set]
        simp only [if_neg h1, if_pos rfl, if_true, RecordMap.valuesSum_cons,
          RecordMap.lookup_cons]
        simp
        omega
      · rw [RecordMap.set]
        simp only [if_neg h1, if_neg h2, RecordMap.valuesSum_cons, RecordMap.lookup_cons,
          if_neg h2]
        have := ih hrest
        omega

/-- Incrementing one key of a sorted record raises the value sum by one:
the shape of the `objectCounts` / `anomalyCounts` updates. -/
theorem RecordMap.valuesSum_incr (m : RecordMap Nat) (k : Nat) (h : m.SortedKeys) :
    (m.set k ((m.lookup k).getD 0 + 1)).valuesSum = m.valuesSum + 1 := by
  have := RecordMap.valuesSum_set m k ((m.lookup k).getD 0 + 1) h
  omega

/-- The aggregation body keeps both count records sorted and keeps
`totalObjects + totalAnomalies` in step with `totalDetections`. -/
theorem AnaStore.admit_inv (st : AnaStore) (det : Detection)
    (h1 : st.objectCounts.SortedKeys) (h2 : st.anomalyCounts.SortedKeys)
    (h3 : st.totalObjects + st.totalAnomalies = st.totalDetections) :
    (st.admitDetection det).objectCounts.SortedKeys ∧ (st.admitDetection det).anomalyCounts.SortedKeys ∧
      (st.admitDetection det).totalObjects + (st.admitDetection det).totalAnomalies =
        (st.admitDetection det).totalDetections := by
  rw [AnaStore.totalObjects, AnaStore.totalAnomalies] at h3
  cases hdet : det.is_anomaly with
  | true =>
    refine ⟨?_, ?_, ?_⟩
    · simpa [AnaStore.admitDetection, hdet] using h1
    · simp only [AnaStore.admitDetection, hdet, if_pos]
      exact RecordMap.sortedKeys_set _ _ _ h2
    · simp only [AnaStore.admitDetection, AnaStore.totalObjects, AnaStore.totalAnomalies, hdet,
        if_true]
      rw [RecordMap.valuesSum_incr _ _ h2]
      omega
  | false =>
    refine ⟨?_, ?_, ?_⟩
    · simp only [AnaStore.admitDetection, hdet, Bool.false_eq_true, if_false]
      exact RecordMap.sortedKeys_set _ _ _ h1
    · simpa [AnaStore.admitDetection, hdet] using h2
    · simp only [AnaStore.admitDetection, AnaStore.totalObjects, AnaStore.totalAnomalies, hdet,
        Bool.false_eq_true, if_false]
      rw [RecordMap.valuesSum_incr _ _ h1]
      omega

/-- The admission guard preserves the count invariant. -/
theorem AnaStore.processOne_inv (st : AnaStore) (det : Detection)
    (h1 : st.objectCounts.SortedKeys) (h2 : st.anomalyCounts.SortedKeys)
    (h3 : st.totalObjects + st.totalAnomalies = st.totalDetections) :
    (st.processOne det).objectCounts.SortedKeys ∧
      (st.processOne det).anomalyCounts.SortedKeys ∧
      (st.processOne det).totalObjects + (st.processOne det).totalAnomalies =
        (st.processOne det).totalDetections := by
  rw [AnaStore.processOne]
  cases det.track_id with
  | none => exact ⟨h1, h2, h3⟩
  | some tid =>
    by_cases hmem : tid ∈ st.seenTrackingIds
    · simp only [if_pos hmem]
      exact ⟨h1, h2, h3⟩
    · simp only [if_neg hmem]
      exact AnaStore.admit_inv _ det h1 h2 h3

/-- `processDetections` preserves the count invariant. -/
theorem AnaStore.processDetections_inv (ds : List Detection) (st : AnaStore)
    (h1 : st.objectCounts.SortedKeys) (h2 : st.anomalyCounts.SortedKeys)
    (h3 : st.totalObjects + st.totalAnomalies = st.totalDetections) :
    (st.processDetections ds).objectCounts.SortedKeys ∧
      (st.processDetections ds).anomalyCounts.SortedKeys ∧
      (st.processDetections ds).totalObjects + (st.processDetections ds).totalAnomalies =
        (st.processDetections ds).totalDetections := by
  induction ds generalizing st with
  | nil => exact ⟨h1, h2, h3⟩
  | cons d ds ih =>
    rw [AnaStore.processDetections, List.foldl_cons]
    obtain ⟨g1, g2, g3⟩ := AnaStore.processOne_inv st d h1 h2 h3
    exact ih (st.processOne d) g1 g2 g3

/-- The aggregation body never touches the admission set. -/
theorem AnaStore.admit_seen (st : AnaStore) (det : Detection) :
    (st.admitDetection det).seenTrackingIds = st.seenTrackingIds := rfl

/-- After `processDetections`, the admission set is the old one plus every
non-absent `track_id` of the list. -/
theorem AnaStore.processDetections_seen (ds : List Detection) (st : AnaStore) :
    (st.processDetections ds).seenTrackingIds =
      st.seenTrackingIds ∪ (ds.filterMap Detection.track_id).toFinset := by
  induction ds generalizing st with
  | nil => simp [AnaStore.processDetections]
  | cons d ds ih =>
    rw [AnaStore.processDetections, List.foldl_cons]
    have step : (st.processOne d).processDetections ds =
        List.foldl AnaStore.processOne (st.processOne d) ds := rfl
    rw [← step, ih]
    cases htid : d.track_id with
    | none =>
      simp [AnaStore.processOne, htid, List.filterMap_cons]
    | some tid =>
      simp only [List.filterMap_cons, htid, List.toFinset_cons]
      by_cases hmem : tid ∈ st.seenTrackingIds
      · simp only [AnaStore.processOne, htid, if_pos hmem]
        rw [Finset.union_insert]
        rw [Finset.insert_eq_self.mpr (Finset.mem_union_left _ hmem)]
      · simp only [AnaStore.processOne, htid, if_neg hmem, AnaStore.admit_seen]
        rw [Finset.union_insert, Finset.insert_union]

/-- The aggregation body raises `totalDetections` by exactly one. -/
theorem AnaStore.admit_total (st : AnaStore) (det : Detection) :
    (st.admitDetection det).totalDetections = st.totalDetections + 1 := rfl

/-- `processDetections` keeps `totalDetections` equal to the size of the
admission set. -/
theorem AnaStore.processDetections_card (ds : List Detection) (st : AnaStore)
    (h : st.totalDetections = st.seenTrackingIds.card) :
    (st.processDetections ds).totalDetections =
      (st.processDetections ds).seenTrackingIds.card := by
  induction ds generalizing st with
  | nil => exact h
  | cons d ds ih =>
    rw [AnaStore.processDetections, List.foldl_cons]
    apply ih
    cases htid : d.track_id with
    | none => simpa [AnaStore.processOne, htid] using h
    | some tid =>
      by_cases hmem : tid ∈ st.seenTrackingIds
      · simpa [AnaStore.processOne, htid, hmem] using h
      · simp only [AnaStore.processOne, htid, if_neg hmem, AnaStore.admit_total,
          AnaStore.admit_seen]
        rw [Finset.card_insert_of_not_mem hmem, h]

/-- Detections with an absent `track_id` have no effect at all: filtering
them out first gives the same final state. -/
theorem AnaStore.processDetections_filter_track (ds : List Detection) (st : AnaStore) :
    st.processDetections (ds.filter fun d => d.track_id.isSome) =
      st.processDetections ds := by
  induction ds generalizing st with
  | nil => rfl
  | cons d ds ih =>
    cases htid : d.track_id with
    | none =>
      have hd : (fun d : Detection => d.track_id.isSome) d = false := by simp [htid]
      rw [AnaStore.processDetections, List.filter_cons_of_neg (by simp [htid])]
      have hskip : st.processOne d = st := by simp [AnaStore.processOne, htid]
      rw [AnaStore.processDetections, List.foldl_cons, hskip]
      exact ih st
    | some tid =>
      rw [AnaStore.processDetections, List.filter_cons_of_pos (by simp [htid])]
      rw [List.foldl_cons]
      rw [AnaStore.processDetections, List.foldl_cons]
      exact ih (st.processOne d)

/-- A list whose non-absent `track_id`s are all already seen is a no-op. -/
theorem AnaStore.processDetections_allSeen (ds : List Detection) (st : AnaStore)
    (h : ∀ d ∈ ds, ∀ tid : Int, d.track_id = some tid → tid ∈ st.seenTrackingIds) :
    st.processDetections ds = st := by
  induction ds generalizing st with
  | nil => rfl
  | cons d ds ih =>
    rw [AnaStore.processDetections, List.foldl_cons]
    have hskip : st.processOne d = st := by
      cases htid : d.track_id with
      | none => simp [AnaStore.processOne, htid]
      | some tid =>
        simp [AnaStore.processOne, htid, h d (List.mem_cons_self _ _) tid htid]
    rw [hskip]
    exact ih st fun x hx tid htid => h x (List.mem_cons_of_mem _ hx) tid htid

/-- Across a whole run, the admission set accumulates every non-absent
`track_id` of every polled list. -/
theorem AnaStore.foldl_seen (dss : List (List Detection)) (st : AnaStore) :
    (dss.foldl AnaStore.processDetections st).seenTrackingIds =
      st.seenTrackingIds ∪ ((dss.flatten).filterMap Detection.track_id).toFinset := by
  induction dss generalizing st with
  | nil => simp
  | cons ds dss ih =>
    rw [List.foldl_cons, ih, AnaStore.processDetections_seen]
    simp [List.filterMap_append, Finset.union_assoc]

/-- Across a whole run, `totalDetections` stays equal to the size of the
admission set. -/
theorem AnaStore.foldl_card (dss : List (List Detection)) (st : AnaStore)
    (h : st.totalDetections = st.seenTrackingIds.card) :
    (dss.foldl AnaStore.processDetections st).totalDetections =
      (dss.foldl AnaStore.processDetections st).seenTrackingIds.card := by
  induction dss generalizing st with
  | nil => exact h
  | cons ds dss ih =>
    rw [List.foldl_cons]
    exact ih _ (AnaStore.processDetections_card ds st h)

/-- Any sequence of `processDetections` / `resetAnalytics` calls keeps both
count records sorted and `totalObjects + totalAnomalies = totalDetections`. -/
theorem AnaStore.foldl_ops_inv (ops : List AnaOp) (st : AnaStore)
    (h1 : st.objectCounts.SortedKeys) (h2 : st.anomalyCounts.SortedKeys)
    (h3 : st.totalObjects + st.totalAnomalies = st.totalDetections) :
    (ops.foldl AnaStore.applyOp st).objectCounts.SortedKeys ∧
      (ops.foldl AnaStore.applyOp st).anomalyCounts.SortedKeys ∧
      (ops.foldl AnaStore.applyOp st).totalObjects +
          (ops.foldl AnaStore.applyOp st).totalAnomalies =
        (ops.foldl AnaStore.applyOp st).totalDetections := by
  induction ops generalizing st with
  | nil => exact ⟨h1, h2, h3⟩
  | cons op ops ih =>
    rw [List.foldl_cons]
    cases op with
    | process ds =>
      obtain ⟨g1, g2, g3⟩ := AnaStore.processDetections_inv ds st h1 h2 h3
      exact ih _ g1 g2 g3
    | reset =>
      apply ih
      · exact List.Pairwise.nil
      · exact List.Pairwise.nil
      · rfl

/-- C1: over any sequence of polled detection lists, `totalDetections`
equals the number of distinct non-absent `track_id`s in the whole sequence,
and detections with an absent `track_id` leave the entire analytics state —
totals, counts, `maxDetection` and `minDetection` included — untouched, so
they are never admitted and never counted. -/
theorem total_admitted_counts_distinct_track_ids :
    (∀ dss : List (List Detection),
      (AnaStore.runPolls dss).totalDetections =
        ((dss.flatten).filterMap Detection.track_id).toFinset.card) ∧
    (∀ (st : AnaStore) (ds : List Detection),
      st.processDetections (ds.filter fun d => d.track_id.isSome) =
        st.processDetections ds) := by
  constructor
  · intro dss
    rw [AnaStore.runPolls, AnaStore.foldl_card dss AnaStore.init rfl, AnaStore.foldl_seen]
    simp [AnaStore.init]
  · exact fun st ds => AnaStore.processDetections_filter_track ds st

/-- C6: in every state of the analytics store reachable by
`processDetections` and `resetAnalytics` calls, the sum of all
`objectCounts` values plus the sum of all `anomalyCounts` values equals
`totalDetections`. -/
theorem object_anomaly_counts_partition_total :
    ∀ ops : List AnaOp,
      (AnaStore.runOps ops).totalObjects + (AnaStore.runOps ops).totalAnomalies =
        (AnaStore.runOps ops).totalDetections := by
  intro ops
  exact (AnaStore.foldl_ops_inv ops AnaStore.init List.Pairwise.nil List.Pairwise.nil rfl).2.2

/-- C10: `processDetections` is idempotent on its input list: running the
same detection list a second time changes nothing, because the first run
recorded every non-absent `track_id` in the admission set. -/
theorem processDetections_idempotent :
    ∀ (st : AnaStore) (ds : List Detection),
      (st.processDetections ds).processDetections ds = st.processDetections ds := by
  intro st ds
  apply AnaStore.processDetections_allSeen
  intro d hd tid htid
  rw [AnaStore.processDetections_seen]
  apply Finset.mem_union_right
  rw [List.mem_toFinset]
  exact List.mem_filterMap.mpr ⟨d, hd, htid⟩

/-- Folding the per-class step from an existing entry always yields an
entry. -/
theorem entryFold_some (cs : List Detection) (o : CountEntry) :
    ∃ z : CountEntry, cs.foldl entryStep (some o) = some z := by
  induction cs generalizing o with
  | nil => exact ⟨o, rfl⟩
  | cons d cs ih =>
    rw [List.foldl_cons]
    exact ih _

/-- Folding the per-class step from nothing yields nothing only on the empty
list. -/
theorem entryFold_eq_none (cs : List Detection)
    (h : cs.foldl entryStep none = none) : cs = [] := by
  cases cs with
  | nil => rfl
  | cons d cs =>
    rw [List.foldl_cons] at h
    obtain ⟨z, hz⟩ := entryFold_some cs ⟨d, 1⟩
    rw [show entryStep none d = some ⟨d, 1⟩ from rfl, hz] at h
    exact absurd h (by simp)

/-- Folding the per-class admission step over a class's admitted detections
keeps as `detection` the first detection attaining the maximum confidence:
it belongs to the list, dominates every confidence, and everything before it
has strictly smaller confidence. -/
theorem entryFold_spec (cs : List Detection) :
    ∀ e : CountEntry, cs.foldl entryStep none = some e →
      e.detection ∈ cs ∧ (∀ d ∈ cs, d.confidence ≤ e.detection.confidence) ∧
        ∃ l₁ l₂, cs = l₁ ++ e.detection :: l₂ ∧
          ∀ d ∈ l₁, d.confidence < e.detection.confidence := by
  induction cs using List.reverseRecOn with
  | nil => intro e h; simp at h
  | append_singleton cs d ih =>
    intro e h
    rw [List.foldl_append, List.foldl_cons, List.foldl_nil] at h
    cases hcs : cs.foldl entryStep none with
    | none =>
      have hnil : cs = [] := entryFold_eq_none cs hcs
      subst hnil
      rw [List.foldl_nil] at h
      have he : e = ⟨d, 1⟩ := by
        have := h
        rw [show entryStep none d = some ⟨d, 1⟩ from rfl] at this
        exact (Option.some.inj this).symm
      subst he
      refine ⟨by simp, ?_, [], [], by simp, by simp⟩
      intro x hx
      simp at hx
      rw [hx]
    | some e₀ =>
      rw [hcs] at h
      obtain ⟨hmem, hmax, l₁, l₂, hdec, hlt⟩ := ih e₀ hcs
      by_cases hgt : d.confidence > e₀.detection.confidence
      · have he : e = ⟨d, e₀.numDetects + 1⟩ := by
          have := h
          rw [show entryStep (some e₀) d =
            some ⟨if d.confidence > e₀.detection.confidence then d else e₀.detection,
              e₀.numDetects + 1⟩ from rfl] at this
          rw [if_pos hgt] at this
          exact (Option.some.inj this).symm
        subst he
        refine ⟨by simp, ?_, cs, [], by simp, ?_⟩
        · intro x hx
          rcases List.mem_append.mp hx with hx | hx
          · exact le_trans (hmax x hx) (le_of_lt hgt)
          · simp at hx
            rw [hx]
        · intro x hx
          exact lt_of_le_of_lt (hmax x hx) hgt
      · have he : e = ⟨e₀.detection, e₀.numDetects + 1⟩ := by
          have := h
          rw [show entryStep (some e₀) d =
            some ⟨if d.confidence > e₀.detection.confidence then d else e₀.detection,
              e₀.numDetects + 1⟩ from rfl] at this
          rw [if_neg hgt] at this
          exact (Option.some.inj this).symm
        subst he
        refine ⟨List.mem_append_left _ hmem, ?_, l₁, l₂ ++ [d], ?_, hlt⟩
        · intro x hx
          rcases List.mem_append.mp hx with hx | hx
          · exact hmax x hx
          · simp at hx
            rw [hx]
            exact le_of_not_lt hgt
        · rw [hdec]
          simp

/-- The admission step changes only the entry of the detection's class, and
changes it exactly as `entryStep` does. -/
theorem lookup_admitDet (m : RecordMap CountEntry) (d : Detection) (c : Nat) :
    RecordMap.lookup (admitDet m d) c =
      if d.class_id = c then entryStep (RecordMap.lookup m c) d
      else RecordMap.lookup m c := by
  by_cases hc : d.class_id = c
  · subst hc
    rw [if_pos rfl]
    cases hm : RecordMap.lookup m d.class_id with
    | none =>
      rw [show admitDet m d = RecordMap.set m d.class_id ⟨d, 1⟩ by rw [admitDet, hm]]
      rw [RecordMap.lookup_set_self]
      rfl
    | some e =>
      rw [show admitDet m d = RecordMap.set m d.class_id
        ⟨if d.confidence > e.detection.confidence then d else e.detection,
          e.numDetects + 1⟩ by rw [admitDet, hm]]
      rw [RecordMap.lookup_set_self]
      rfl
  · rw [if_neg hc]
    cases hm : RecordMap.lookup m d.class_id with
    | none =>
      rw [show admitDet m d = RecordMap.set m d.class_id ⟨d, 1⟩ by rw [admitDet, hm]]
      exact RecordMap.lookup_set_ne m _ c _ fun h => hc h.symm
    | some e =>
      rw [show admitDet m d = RecordMap.set m d.class_id
        ⟨if d.confidence > e.detection.confidence then d else e.detection,
          e.numDetects + 1⟩ by rw [admitDet, hm]]
      exact RecordMap.lookup_set_ne m _ c _ fun h => hc h.symm

/-- One class's entry after a whole admission fold is the `entryStep` fold
over the detections of that class. -/
theorem lookup_foldl_admitDet (ds : List Detection) (m : RecordMap CountEntry) (c : Nat) :
    RecordMap.lookup (ds.foldl admitDet m) c =
      (ds.filter fun d => d.class_id = c).foldl entryStep (RecordMap.lookup m c) := by
  induction ds generalizing m with
  | nil => rfl
  | cons d ds ih =>
    rw [List.foldl_cons, ih]
    by_cases hc : d.class_id = c
    · rw [List.filter_cons_of_pos (by simp [hc]), List.foldl_cons]
      rw [lookup_admitDet, if_pos hc]
    · rw [List.filter_cons_of_neg (by simp [hc])]
      rw [lookup_admitDet, if_neg hc]

/-- The admission loop of `fetchDetections` factors through `admittedList`:
its effect on `detectionCounts` is the plain admission fold over the
forwarded detections. -/
theorem DetStore.foldl_processOne_counts (ds : List Detection) (st : DetStore) :
    (ds.foldl DetStore.processOne st).detectionCounts =
      (admittedList st.seenTrackingIds ds).foldl admitDet st.detectionCounts := by
  induction ds generalizing st with
  | nil => rfl
  | cons d ds ih =>
    rw [List.foldl_cons]
    cases htid : d.track_id with
    | none =>
      have hstep : st.processOne d = st := by simp [DetStore.processOne, htid]
      rw [hstep, ih st]
      simp [admittedList, htid]
    | some tid =>
      by_cases hmem : tid ∈ st.seenTrackingIds
      · have hstep : st.processOne d = st := by simp [DetStore.processOne, htid, hmem]
        rw [hstep, ih st]
        simp [admittedList, htid, hmem]
      · rw [ih (st.processOne d)]
        have h1 : (st.processOne d).seenTrackingIds = insert tid st.seenTrackingIds := by
          simp [DetStore.processOne, htid, hmem]
        have h2 : (st.processOne d).detectionCounts = admitDet st.detectionCounts d := by
          simp [DetStore.processOne, htid, hmem]
        rw [h1, h2]
        simp [admittedList, htid, hmem, List.foldl_cons]

/-- After the admission loop, the store's admission set is the old one plus
every non-absent `track_id` of the list. -/
theorem DetStore.foldl_processOne_seen (ds : List Detection) (st : DetStore) :
    (ds.foldl DetStore.processOne st).seenTrackingIds =
      st.seenTrackingIds ∪ (ds.filterMap Detection.track_id).toFinset := by
  induction ds generalizing st with
  | nil => simp
  | cons d ds ih =>
    rw [List.foldl_cons, ih]
    cases htid : d.track_id with
    | none =>
      simp [DetStore.processOne, htid, List.filterMap_cons]
    | some tid =>
      simp only [List.filterMap_cons, htid, List.toFinset_cons]
      by_cases hmem : tid ∈ st.seenTrackingIds
      · simp only [DetStore.processOne, htid, if_pos hmem]
        rw [Finset.union_insert]
        rw [Finset.insert_eq_self.mpr (Finset.mem_union_left _ hmem)]
      · simp only [DetStore.processOne, htid, if_neg hmem]
        rw [Finset.union_insert, Finset.insert_union]

/-- The forwarded subsequence of a concatenation: the second part is
deduplicated against the ids already collected from the first. -/
theorem admittedList_append (l₁ l₂ : List Detection) (seen : Finset Int) :
    admittedList seen (l₁ ++ l₂) =
      admittedList seen l₁ ++
        admittedList (seen ∪ (l₁.filterMap Detection.track_id).toFinset) l₂ := by
  induction l₁ generalizing seen with
  | nil => simp [admittedList]
  | cons d l₁ ih =>
    cases htid : d.track_id with
    | none =>
      rw [List.cons_append]
      rw [show admittedList seen (d :: (l₁ ++ l₂)) = admittedList seen (l₁ ++ l₂) by
        simp [admittedList, htid]]
      rw [show admittedList seen (d :: l₁) = admittedList seen l₁ by
        simp [admittedList, htid]]
      rw [ih seen]
      simp [List.filterMap_cons, htid]
    | some tid =>
      rw [List.cons_append]
      by_cases hmem : tid ∈ seen
      · rw [show admittedList seen (d :: (l₁ ++ l₂)) = admittedList seen (l₁ ++ l₂) by
          simp [admittedList, htid, hmem]]
        rw [show admittedList seen (d :: l₁) = admittedList seen l₁ by
          simp [admittedList, htid, hmem]]
        rw [ih seen]
        have : seen ∪ (List.filterMap Detection.track_id (d :: l₁)).toFinset =
            seen ∪ (List.filterMap Detection.track_id l₁).toFinset := by
          simp only [List.filterMap_cons, htid, List.toFinset_cons]
          rw [Finset.union_insert, Finset.insert_eq_self.mpr (Finset.mem_union_left _ hmem)]
        rw [this]
      · rw [show admittedList seen (d :: (l₁ ++ l₂)) =
            d :: admittedList (insert tid seen) (l₁ ++ l₂) by
          simp [admittedList, htid, hmem]]
        rw [show admittedList seen (d :: l₁) = d :: admittedList (insert tid seen) l₁ by
          simp [admittedList, htid, hmem]]
        rw [ih (insert tid seen), List.cons_append]
        have : insert tid seen ∪ (List.filterMap Detection.track_id l₁).toFinset =
            seen ∪ (List.filterMap Detection.track_id (d :: l₁)).toFinset := by
          simp only [List.filterMap_cons, htid, List.toFinset_cons]
          rw [Finset.union_insert, Finset.insert_union]
        rw [this]

/-- Across a run of whole fetches, the admission set collects every
non-absent `track_id` of every successful snapshot. -/
theorem DetStore.foldl_fetch_seen (outs : List (Except Unit DetectionsResponse))
    (st : DetStore) :
    (outs.foldl DetStore.fetchDetections st).seenTrackingIds =
      st.seenTrackingIds ∪
        ((successDetections outs).filterMap Detection.track_id).toFinset := by
  induction outs generalizing st with
  | nil => simp [successDetections]
  | cons out outs ih =>
    rw [List.foldl_cons, ih]
    cases out with
    | error e =>
      have h1 : (st.fetchDetections (.error e)).seenTrackingIds = st.seenTrackingIds := rfl
      rw [h1]
      simp [successDetections]
    | ok resp =>
      have h1 : (st.fetchDetections (.ok resp)).seenTrackingIds =
          st.seenTrackingIds ∪ (resp.detections.filterMap Detection.track_id).toFinset := by
        rw [DetStore.fetchDetections, DetStore.resolveFetch]
        have := DetStore.foldl_processOne_seen resp.detections
          { st.beginFetch with data := some resp }
        simpa [DetStore.beginFetch] using this
      rw [h1]
      rw [show successDetections (.ok resp :: outs) =
        resp.detections ++ successDetections outs by simp [successDetections]]
      simp [List.filterMap_append, Finset.union_assoc]

/-- Across a run of whole fetches, `detectionCounts` is the plain admission
fold over the detections forwarded by the deduplicator. -/
theorem DetStore.foldl_fetch_counts (outs : List (Except Unit DetectionsResponse))
    (st : DetStore) :
    (outs.foldl DetStore.fetchDetections st).detectionCounts =
      (admittedList st.seenTrackingIds (successDetections outs)).foldl admitDet
        st.detectionCounts := by
  induction outs generalizing st with
  | nil => simp [successDetections, admittedList]
  | cons out outs ih =>
    rw [List.foldl_cons, ih]
    cases out with
    | error e =>
      have h1 : st.fetchDetections (.error e) =
          { st with loading := false, error := some "Failed to fetch detections" } := rfl
      rw [h1]
      rw [show successDetections (.error e :: outs) = successDetections outs by
        simp [successDetections]]
    | ok resp =>
      have hseen : (st.fetchDetections (.ok resp)).seenTrackingIds =
          st.seenTrackingIds ∪ (resp.detections.filterMap Detection.track_id).toFinset := by
        rw [DetStore.fetchDetections, DetStore.resolveFetch]
        have := DetStore.foldl_processOne_seen resp.detections
          { st.beginFetch with data := some resp }
        simpa [DetStore.beginFetch] using this
      have hcounts : (st.fetchDetections (.ok resp)).detectionCounts =
          (admittedList st.seenTrackingIds resp.detections).foldl admitDet
            st.detectionCounts := by
        rw [DetStore.fetchDetections, DetStore.resolveFetch]
        have := DetStore.foldl_processOne_counts resp.detections
          { st.beginFetch with data := some resp }
        simpa [DetStore.beginFetch] using this
      rw [hseen, hcounts]
      rw [show successDetections (.ok resp :: outs) =
        resp.detections ++ successDetections outs by simp [successDetections]]
      rw [admittedList_append, List.foldl_append]

/-- An element that must precede every element of the list is inserted at
the front. -/
theorem stableInsert_front {α : Type} (le : α → α → Bool) (x : α) (l : List α)
    (h : ∀ y ∈ l, le x y = true) : stableInsert le x l = x :: l := by
  cases l with
  | nil => rfl
  | cons y ys =>
    rw [stableInsert, if_pos (h y (List.mem_cons_self _ _))]

/-- An element that must follow every element of a prefix passes over it. -/
theorem stableInsert_skip {α : Type} (le : α → α → Bool) (x : α) (l₁ l₂ : List α)
    (h : ∀ y ∈ l₁, le x y = false) :
    stableInsert le x (l₁ ++ l₂) = l₁ ++ stableInsert le x l₂ := by
  induction l₁ with
  | nil => rfl
  | cons y ys ih =>
    rw [List.cons_append, stableInsert,
      if_neg (by rw [h y (List.mem_cons_self _ _)]; simp), List.cons_append]
    rw [ih fun z hz => h z (List.mem_cons_of_mem _ hz)]

/-- A stable sort under a comparison derived from a boolean key is exactly
the stable partition: key-true elements in original order, then key-false
elements in original order. -/
theorem stableSort_partition {α : Type} (p : α → Bool) (l : List α) :
    stableSort (fun a b => p a || !p b) l =
      l.filter p ++ l.filter (fun a => !p a) := by
  induction l with
  | nil => rfl
  | cons x xs ih =>
    rw [stableSort, ih]
    by_cases hx : p x = true
    · rw [stableInsert_front _ _ _ (fun y _ => by simp [hx])]
      rw [List.filter_cons_of_pos (by simp [hx]),
        List.filter_cons_of_neg (by simp [hx]), List.cons_append]
    · have hx' : p x = false := by simpa using hx
      rw [stableInsert_skip _ _ _ _ (fun y hy => by
        have := (List.mem_filter.mp hy).2
        simp [hx', this])]
      rw [stableInsert_front _ _ _ (fun y hy => by
        have := (List.mem_filter.mp hy).2
        simp at this
        simp [hx', this])]
      rw [List.filter_cons_of_neg (by simp [hx']),
        List.filter_cons_of_pos (by simp [hx'])]

/-- Folding the admission step keeps the record's keys strictly ascending. -/
theorem sortedKeys_foldl_admitDet (ds : List Detection) (m : RecordMap CountEntry)
    (h : m.SortedKeys) : (ds.foldl admitDet m).SortedKeys := by
  induction ds generalizing m with
  | nil => exact h
  | cons d ds ih =>
    rw [List.foldl_cons]
    apply ih
    cases hm : RecordMap.lookup m d.class_id with
    | none =>
      rw [show admitDet m d = RecordMap.set m d.class_id ⟨d, 1⟩ by rw [admitDet, hm]]
      exact RecordMap.sortedKeys_set m _ _ h
    | some e =>
      rw [show admitDet m d = RecordMap.set m d.class_id
        ⟨if d.confidence > e.detection.confidence then d else e.detection,
          e.numDetects + 1⟩ by rw [admitDet, hm]]
      exact RecordMap.sortedKeys_set m _ _ h

/-- C2 counterexample: after a successful fetch, `resetCounts` leaves `data`
in place, so the snapshot-derived accessors `num_detections` and `timestamp`
still report the fetched snapshot (1 and 7) instead of the fresh-engine
values (0 and 0): the claim that after reset every accessor reads as on a
freshly constructed engine is false. -/
theorem reset_keeps_snapshot_accessors :
    (DetStore.init.fetchDetections (.ok respCar)).resetCounts.numDetectionsView = 1 ∧
      DetStore.init.numDetectionsView = 0 ∧
      (DetStore.init.fetchDetections (.ok respCar)).resetCounts.timestampView = 7 ∧
      DetStore.init.timestampView = 0 := by
  decide

/-- C2 (amended): `resetAnalytics` restores the whole analytics store to its
freshly constructed state in one transition, and `resetCounts` clears the
detections store's `AdmissionSet` and class summaries in one transition so
that every aggregate accessor reads as on a fresh engine — but the
snapshot fields `data`, `loading`, `error` and the timer id survive the
reset, so snapshot-derived accessors keep reporting the last fetch. -/
theorem reset_clears_aggregates :
    (∀ a : AnaStore, a.resetAnalytics = AnaStore.init) ∧
    (∀ s : DetStore,
      s.resetCounts.detectionCounts = RecordMap.empty CountEntry ∧
      s.resetCounts.seenTrackingIds = ∅ ∧
      s.resetCounts.groupedDetections = DetStore.init.groupedDetections ∧
      s.resetCounts.groupedDetectionsSorted = DetStore.init.groupedDetectionsSorted ∧
      s.resetCounts.groupedAnomalies = DetStore.init.groupedAnomalies ∧
      s.resetCounts.hasAnomalyView = DetStore.init.hasAnomalyView ∧
      s.resetCounts.data = s.data ∧
      s.resetCounts.loading = s.loading ∧
      s.resetCounts.error = s.error ∧
      s.resetCounts.intervalId = s.intervalId) := by
  constructor
  · intro a
    rfl
  · intro s
    exact ⟨rfl, rfl, rfl, rfl, rfl, rfl, rfl, rfl, rfl, rfl⟩

/-- C5: across any run of fetches from a fresh engine, a class's stored
entry holds the first detection attaining the maximum confidence among the
admitted detections of that class: replacement happens only on strictly
greater confidence, so ties keep the first-admitted detection. -/
theorem best_detection_is_first_max :
    ∀ (outs : List (Except Unit DetectionsResponse)) (c : Nat) (e : CountEntry),
      RecordMap.lookup (DetStore.init.runFetches outs).detectionCounts c = some e →
      e.detection ∈ ((admittedList ∅ (successDetections outs)).filter
          fun d => d.class_id = c) ∧
        (∀ d ∈ (admittedList ∅ (successDetections outs)).filter
            (fun d => d.class_id = c), d.confidence ≤ e.detection.confidence) ∧
        ∃ l₁ l₂,
          ((admittedList ∅ (successDetections outs)).filter fun d => d.class_id = c) =
              l₁ ++ e.detection :: l₂ ∧
            ∀ d ∈ l₁, d.confidence < e.detection.confidence := by
  intro outs c e h
  rw [DetStore.runFetches, DetStore.foldl_fetch_counts] at h
  rw [show DetStore.init.seenTrackingIds = (∅ : Finset Int) from rfl] at h
  rw [show DetStore.init.detectionCounts = ([] : RecordMap CountEntry) from rfl] at h
  rw [lookup_foldl_admitDet] at h
  exact entryFold_spec _ e h

/-- C5 witness: one fetch admits `detCar` (class 5) and `detDog` (class 3);
class 5's entry holds `detCar`, which is the first maximum of its class. -/
theorem best_detection_is_first_max_witness :
    RecordMap.lookup (DetStore.init.runFetches [.ok respTwo]).detectionCounts 5 =
        some ⟨detCar, 1⟩ ∧
      (detCar ∈ ((admittedList ∅ (successDetections [.ok respTwo])).filter
          fun d => d.class_id = 5) ∧
        (∀ d ∈ (admittedList ∅ (successDetections [.ok respTwo])).filter
            (fun d => d.class_id = 5), d.confidence ≤ detCar.confidence) ∧
        ∃ l₁ l₂,
          ((admittedList ∅ (successDetections [.ok respTwo])).filter
              fun d => d.class_id = 5) = l₁ ++ detCar :: l₂ ∧
            ∀ d ∈ l₁, d.confidence < detCar.confidence) :=
  ⟨by decide, best_detection_is_first_max [.ok respTwo] 5 ⟨detCar, 1⟩ (by decide)⟩

/-- C7 counterexample: one fetch admits class 5 (`detCar`) before class 3
(`detDog`), neither anomalous, so a sort preserving first-admission order
would list the class-5 entry first; `groupedDetectionsSorted` instead lists
the class-3 entry first, because `Object.values` enumerates the record in
ascending `class_id` order, not insertion order. -/
theorem grouped_sorted_not_insertion_order :
    (DetStore.init.fetchDetections (.ok respTwo)).groupedDetectionsSorted =
        [⟨detDog, 1⟩, ⟨detCar, 1⟩] ∧
      (DetStore.init.fetchDetections (.ok respTwo)).groupedDetectionsSorted ≠
        [⟨detCar, 1⟩, ⟨detDog, 1⟩] ∧
      ∀ e ∈ (DetStore.init.fetchDetections (.ok respTwo)).groupedDetectionsSorted,
        e.detection.is_anomaly = false := by
  decide

/-- C7 (amended): `groupedDetectionsSorted` is the stable partition of the
grouped summaries — summaries whose stored detection is anomalous first, in
their `groupedDetections` order, then the rest in that order — where the
underlying order is the record's ascending `class_id` enumeration (each
reachable `detectionCounts` has strictly ascending keys, and each entry is
keyed by its own detection's `class_id`), not first-admission order. -/
theorem grouped_sorted_stable_partition :
    (∀ st : DetStore, st.groupedDetectionsSorted =
        st.groupedDetections.filter (fun e => e.detection.is_anomaly) ++
          st.groupedDetections.filter fun e => !e.detection.is_anomaly) ∧
    (∀ outs : List (Except Unit DetectionsResponse),
      (DetStore.init.runFetches outs).detectionCounts.SortedKeys) ∧
    (∀ (outs : List (Except Unit DetectionsResponse)) (c : Nat) (e : CountEntry),
      RecordMap.lookup (DetStore.init.runFetches outs).detectionCounts c = some e →
        e.detection.class_id = c) := by
  refine ⟨?_, ?_, ?_⟩
  · intro st
    exact stableSort_partition (fun e : CountEntry => e.detection.is_anomaly)
      st.groupedDetections
  · intro outs
    rw [DetStore.runFetches, DetStore.foldl_fetch_counts]
    exact sortedKeys_foldl_admitDet _ _ List.Pairwise.nil
  · intro outs c e h
    rw [DetStore.runFetches, DetStore.foldl_fetch_counts] at h
    rw [show DetStore.init.seenTrackingIds = (∅ : Finset Int) from rfl] at h
    rw [show DetStore.init.detectionCounts = ([] : RecordMap CountEntry) from rfl] at h
    rw [lookup_foldl_admitDet] at h
    obtain ⟨hmem, -, -⟩ := entryFold_spec _ e h
    have := (List.mem_filter.mp hmem).2
    simpa using this

/-- C3 evidence: run the loop (start, first fetch resolves, timer fires so a
second fetch is in flight), call `stopPolling` while that fetch is in
flight, then let it resolve carrying `detCar`. `stopPolling` nulls
`intervalId` and the pending-timer check finds nothing to cancel (the timer
already fired), yet when the fetch resolves the admission loop still runs —
`seenTrackingIds` becomes `{1}` and `detectionCounts` gains class 5 — and
`setTimeout` arms a fresh timer with `intervalId = some 1`: aggregate state
is mutated after stop and the loop does not stay idle, contradicting the
claim. -/
theorem stop_does_not_stop_inflight_fetch :
    (PollState.run [.start 100, .resolve 0 (.ok respEmpty), .fire 0,
        .stop]).store.intervalId = none ∧
      (PollState.run [.start 100, .resolve 0 (.ok respEmpty), .fire 0,
        .stop]).inflight = [100] ∧
      (PollState.run [.start 100, .resolve 0 (.ok respEmpty), .fire 0,
        .stop]).armed = [] ∧
      ((PollState.run [.start 100, .resolve 0 (.ok respEmpty), .fire 0, .stop]).step
        (.resolve 0 (.ok respCar))).store.seenTrackingIds = {1} ∧
      ((PollState.run [.start 100, .resolve 0 (.ok respEmpty), .fire 0, .stop]).step
        (.resolve 0 (.ok respCar))).store.detectionCounts = [(5, ⟨detCar, 1⟩)] ∧
      ((PollState.run [.start 100, .resolve 0 (.ok respEmpty), .fire 0, .stop]).step
        (.resolve 0 (.ok respCar))).armed = [(1, 100)] ∧
      ((PollState.run [.start 100, .resolve 0 (.ok respEmpty), .fire 0, .stop]).step
        (.resolve 0 (.ok respCar))).store.intervalId = some 1 := by
  decide

/-- C4 counterexample: a second `startPolling` call issued while the very
first fetch is still in flight passes the `intervalId !== null` guard
(`intervalId` is only assigned after the first fetch resolves) and launches
a second poll chain: the call is not a no-op and two fetches are in flight
at once. -/
theorem start_during_first_fetch_not_noop :
    (PollState.run [.start 100]).step (.start 50) ≠ PollState.run [.start 100] ∧
      ((PollState.run [.start 100]).step (.start 50)).inflight = [100, 50] := by
  decide

/-- C4 (amended): `startPolling` is a no-op exactly when `intervalId` is
non-null — in the `Scheduled` state and in any `Fetching` state entered by a
timer firing; only during the very first not-yet-resolved fetch does the
guard fail. -/
theorem start_noop_when_timer_recorded :
    ∀ (s : PollState) (ms : Nat),
      s.store.intervalId ≠ none → s.step (.start ms) = s := by
  intro s ms h
  simp [PollState.step, h]

/-- C4 witness: after the first fetch resolves, `intervalId` is set and a
further `startPolling` call changes nothing. -/
theorem start_noop_when_timer_recorded_witness :
    (PollState.run [.start 100, .resolve 0 (.ok respEmpty)]).store.intervalId ≠ none ∧
      (PollState.run [.start 100, .resolve 0 (.ok respEmpty)]).step (.start 50) =
        PollState.run [.start 100, .resolve 0 (.ok respEmpty)] :=
  ⟨by decide, start_noop_when_timer_recorded _ 50 (by decide)⟩

/-- C8: when an in-flight fetch resolves with a failure, the per-class
counts, the admission set and the last stored snapshot are untouched, the
failure is surfaced only through the `error` flag, and the poll loop still
arms the next timer, so the cadence continues. -/
theorem fetch_failure_preserves_state_and_cadence :
    ∀ (s : PollState) (i ms : Nat), s.inflight.get? i = some ms →
      ((s.step (.resolve i (.error ()))).store.detectionCounts =
          s.store.detectionCounts ∧
        (s.step (.resolve i (.error ()))).store.seenTrackingIds =
          s.store.seenTrackingIds ∧
        (s.step (.resolve i (.error ()))).store.data = s.store.data ∧
        (s.step (.resolve i (.error ()))).store.error =
          some "Failed to fetch detections" ∧
        (s.step (.resolve i (.error ()))).store.loading = false ∧
        (s.step (.resolve i (.error ()))).armed = s.armed ++ [(s.nextId, ms)] ∧
        (s.step (.resolve i (.error ()))).store.intervalId = some s.nextId) := by
  intro s i ms h
  rw [List.get?_eq_getElem?] at h
  simp [PollState.step, h, DetStore.resolveFetch]

/-- C8 witness: with the first fetch of a freshly started loop in flight, a
failing resolution keeps all aggregate state, sets the error flag and arms
the next timer. -/
theorem fetch_failure_preserves_state_and_cadence_witness :
    ((PollState.run [.start 100]).step (.resolve 0 (.error ()))).store.detectionCounts =
        (PollState.run [.start 100]).store.detectionCounts ∧
      ((PollState.run [.start 100]).step
          (.resolve 0 (.error ()))).store.seenTrackingIds =
        (PollState.run [.start 100]).store.seenTrackingIds ∧
      ((PollState.run [.start 100]).step (.resolve 0 (.error ()))).store.data =
        (PollState.run [.start 100]).store.data ∧
      ((PollState.run [.start 100]).step (.resolve 0 (.error ()))).store.error =
        some "Failed to fetch detections" ∧
      ((PollState.run [.start 100]).step (.resolve 0 (.error ()))).store.loading =
        false ∧
      ((PollState.run [.start 100]).step (.resolve 0 (.error ()))).armed =
        (PollState.run [.start 100]).armed ++ [((PollState.run [.start 100]).nextId, 100)] ∧
      ((PollState.run [.start 100]).step (.resolve 0 (.error ()))).store.intervalId =
        some (PollState.run [.start 100]).nextId :=
  fetch_failure_preserves_state_and_cadence (PollState.run [.start 100]) 0 100 (by decide)

/-- C9: `buildFrequencyList` returns the empty list whenever the divisor is
0; for a positive divisor it returns one row per entry of the counts record,
carrying that entry's key and count, with `frequency = count / divisor`. -/
theorem frequency_table_divisor (st : AnaStore) (counts : RecordMap Nat) :
    st.buildFrequencyList counts 0 = [] ∧
      ∀ divisor : ℚ, 0 < divisor →
        ((st.buildFrequencyList counts divisor).map (fun i => (i.class_id, i.count)) =
            counts ∧
          ∀ i ∈ st.buildFrequencyList counts divisor,
            i.frequency = (i.count : ℚ) / divisor) := by
  constructor
  · simp [AnaStore.buildFrequencyList]
  · intro d hd
    have hne : d ≠ 0 := ne_of_gt hd
    constructor
    · simp only [AnaStore.buildFrequencyList, if_neg hne, List.map_map]
      exact List.map_id'' (fun kc => rfl) counts
    · intro i hi
      simp only [AnaStore.buildFrequencyList, if_neg hne, List.mem_map] at hi
      obtain ⟨kc, _, rfl⟩ := hi
      rfl

/-- C9 witness: on a one-entry counts record, divisor 0 gives the empty
table and divisor 2 gives the single row with frequency `count / 2`. -/
theorem frequency_table_divisor_witness :
    AnaStore.init.buildFrequencyList [(1, 2)] 0 = [] ∧
      ((AnaStore.init.buildFrequencyList [(1, 2)] 2).map
          (fun i => (i.class_id, i.count)) = [(1, 2)] ∧
        ∀ i ∈ AnaStore.init.buildFrequencyList [(1, 2)] 2,
          i.frequency = (i.count : ℚ) / 2) :=
  ⟨(frequency_table_divisor AnaStore.init [(1, 2)]).1,
    (frequency_table_divisor AnaStore.init [(1, 2)]).2 2 (by norm_num)⟩

/-- C7 witness: in the run with one successful fetch of `respTwo`, class 3's
entry exists and its stored detection is of class 3, instantiating the
keyed-by-own-class-id conjunct. -/
theorem grouped_sorted_stable_partition_witness :
    RecordMap.lookup (DetStore.init.runFetches [.ok respTwo]).detectionCounts 3 =
        some ⟨detDog, 1⟩ ∧
      (⟨detDog, 1⟩ : CountEntry).detection.class_id = 3 :=
  ⟨by decide,
    grouped_sorted_stable_partition.2.2 [.ok respTwo] 3 ⟨detDog, 1⟩ (by decide)⟩
